import Mathlib

/-!
Verification of the JSONRPC transport implemented in `src/json.c`.

The development shallowly embeds the byte-level behaviour of the transport:

* `read_until` models the `read_until` helper (scan the child's stdout one
  byte at a time, accumulating into a zeroed buffer, until `strstr` finds the
  needle); `hasInfix` models `strstr(haystack, needle) != NULL`.
* `strtol10` models `strtol(data, &end, 10)` (leading C-locale whitespace,
  optional sign, digit run, saturation at `LONG_MAX`/`LONG_MIN`), and `sizeT`
  models the conversion of the result to `size_t`.
* `json_rpc_callback` models one iteration of the frame reader (the function
  of the same name): find `"Content-Length:"`, find `"\r\n\r\n"`, parse the
  length, read exactly that many payload bytes, hand them to the JSON decoder.
  The decoder (jansson's `json_loads`) is an external collaborator and is a
  parameter `jsonLoads`; a result of `none` models a decode failure with
  `param->error` set.  The input stream is the list of all bytes the child
  ever writes to stdout; an exhausted list models `recv` returning zero bytes
  with the process dead.  Interleaved stderr bytes are modelled separately
  (see `read_stdout_capture`).
* `Fjson_rpc` models the dispatch loop of `Fjson_rpc` as the list of
  deliveries made to the Lisp callback: `Delivery.msg m` for
  `callback(msg, nil, nil)`, `Delivery.parseErr` for
  `callback(nil, error, nil)`, and `Delivery.eof` for the final
  `callback(nil, nil, t)`.
* `json_rpc_state`, `Fjson_rpc_shutdown`, `json_rpc_teardown`,
  `json_rpc_send_callback` and `Fjson_rpc_send` model the mutex-guarded
  handle state machine: `lockOk` stands for "`pthread_mutex_timedlock`
  succeeded within its timeout", `handle` for "`state->handle` is not the
  `NULL` sentinel", `closeCount` counts calls of `handle->close`.
* `read_stdout_capture` models the stderr capture of `read_stdout`: one
  `recv` writes a chunk of stderr bytes at offset `error_buffer_read` of the
  4 MiB `error_buffer`, and on reaching the capacity the code executes
  `strcpy (error_buffer, error_buffer + ERROR_BUFFER_SIZE / 2)`.  `strcpyHalf`
  models that `strcpy` faithfully: it copies up to and including the first
  NUL byte of the source region (scanning is capped at the end of the
  allocated region, whose final byte the C code never initialises).
* `json_parse_args` models the keyword-argument parser of the same name,
  with `LObj` a minimal universe of Lisp objects compared by `EQ`
  (symbols are interned, so `EQ` on them is name equality).
-/

/-- Bytes of a string literal (ASCII code points as natural numbers). -/
def strBytes (s : String) : List Nat := s.toList.map Char.toNat

/-- The frame delimiter bytes CR LF CR LF scanned for by the reader. -/
def crlfcrlf : List Nat := [13, 10, 13, 10]

/-- Bytes of the header marker scanned for by the reader. -/
def contentLengthMarker : List Nat := strBytes "Content-Length:"

/-- Model of `strstr(haystack, needle) != NULL`: `strstr` tries every suffix
position of the haystack for a match of the needle. -/
def hasInfix (needle : List Nat) : List Nat → Bool
  | [] => needle.isEmpty
  | x :: xs => needle.isPrefixOf (x :: xs) || hasInfix needle xs

/-- Model of `read_until` from `src/json.c`: read single bytes from the
stream, appending them to the accumulator buffer, until the buffer contains
the needle; return `none` when the stream is exhausted first (`read_stdout`
returned 0), otherwise the accumulated bytes and the remaining stream.
The C accumulator is a fixed `char data[BUFFER_SIZE + 1]` whose overflow the
source leaves unchecked (its `XXX` comment); the model is unbounded, and the
headers exercised by the claims stay far below that bound. -/
def read_until (needle : List Nat) : List Nat → List Nat → Option (List Nat × List Nat)
  | [], acc => if hasInfix needle acc then some (acc, []) else none
  | b :: rest, acc =>
    if hasInfix needle acc then some (acc, b :: rest)
    else read_until needle rest (acc ++ [b])

/-- ASCII decimal digit test, as in `strtol`. -/
def isDigitB (b : Nat) : Bool := decide (48 ≤ b ∧ b ≤ 57)

/-- C-locale `isspace` on a byte: space, tab, LF, VT, FF, CR. -/
def isSpaceB (b : Nat) : Bool := decide (b = 32 ∨ (9 ≤ b ∧ b ≤ 13))

/-- Digit-run accumulation of `strtol`: consume decimal digits, stopping at
the first non-digit byte. -/
def strtolDigits : List Nat → Nat → Nat
  | [], acc => acc
  | b :: bs, acc => if isDigitB b then strtolDigits bs (acc * 10 + (b - 48)) else acc

/-- Largest value of the C type `long` on the reference 64-bit platform. -/
def LONG_MAX : Int := 2 ^ 63 - 1

/-- Smallest value of the C type `long` on the reference 64-bit platform. -/
def LONG_MIN : Int := -(2 ^ 63)

/-- Model of `strtol(s, &end, 10)`: skip C-locale whitespace, accept an
optional sign, accumulate digits up to the first non-digit, and saturate at
the `long` range boundaries. -/
def strtol10 (s : List Nat) : Int :=
  let s1 := s.dropWhile isSpaceB
  let raw : Int :=
    match s1 with
    | [] => 0
    | b :: rest =>
      if b = 43 then (strtolDigits rest 0 : Int)
      else if b = 45 then -((strtolDigits rest 0 : Int))
      else (strtolDigits (b :: rest) 0 : Int)
  max LONG_MIN (min LONG_MAX raw)

/-- Conversion of a C `long` value to `size_t` (reduction modulo `2^64`),
as in `const size_t content_length = strtol (data, &_end, 10)`. -/
def sizeT (x : Int) : Nat := (x % (2 ^ 64 : Int)).toNat

/-- Decimal digit bytes of `n`, most significant first, produced with
explicit fuel (the first argument) so that the definition is structural. -/
def natDecimalAux : Nat → Nat → List Nat
  | 0, _ => []
  | fuel + 1, n => if n = 0 then [] else natDecimalAux fuel (n / 10) ++ [n % 10 + 48]

/-- Bytes printed by `sprintf` for `"%zu"` applied to `n`. -/
def natDecimal (n : Nat) : List Nat := if n = 0 then [48] else natDecimalAux n n

/-- Bytes of the frame header that follow the `"Content-Length:"` marker:
one space, the decimal length, and the blank-line delimiter. -/
def headerTail (n : Nat) : List Nat := 32 :: (natDecimal n ++ crlfcrlf)

/-- The framed buffer built by `json_rpc_send_callback`:
`sprintf (msg, "Content-Length: %zu\r\n\r\n%s", size, string)` where `size`
is the byte length of the serialized payload (`strlen`; jansson's compact
output never contains a raw NUL byte). -/
def frame_message (payload : List Nat) : List Nat :=
  strBytes "Content-Length: " ++ natDecimal payload.length ++ strBytes "\r\n\r\n" ++ payload

/-- Result of one iteration of the frame reader `json_rpc_callback`:
whether `param->done` was set, what was stored into `param->message`
(`none` when the iteration terminated without reaching `json_loads`,
`some none` when `json_loads` failed and `param->error` was filled in,
`some (some m)` on a successful decode), and the unconsumed stream. -/
structure StepResult (α : Type) where
  done : Bool
  delivered : Option (Option α)
  rest : List Nat
deriving DecidableEq

/-- Model of `json_rpc_callback` from `src/json.c`: scan for
`"Content-Length:"`, then for `"\r\n\r\n"`; parse the bytes in between with
`strtol` base 10; read exactly `content_length` payload bytes; feed them to
the JSON decoder.  Stream exhaustion at any point before a complete frame
sets `done`.  (The C code NUL-terminates the payload buffer before the
`json_loads` call; JSON text carries no raw NUL bytes, so the decoder
receives exactly the payload bytes, as modelled.) -/
def json_rpc_callback {α : Type} (jsonLoads : List Nat → Option α) (s : List Nat) :
    StepResult α :=
  match read_until contentLengthMarker s [] with
  | none => ⟨true, none, []⟩
  | some (_, s1) =>
    match read_until crlfcrlf s1 [] with
    | none => ⟨true, none, []⟩
    | some (header, s2) =>
      let contentLength := sizeT (strtol10 header)
      if contentLength ≤ s2.length then
        ⟨false, some (jsonLoads (s2.take contentLength)), s2.drop contentLength⟩
      else ⟨true, none, []⟩

/-- One delivery made by the dispatch loop to the caller-supplied handler:
a decoded message, a parse error, or the final end-of-session signal. -/
inductive Delivery (α : Type) where
  | msg (m : α)
  | parseErr
  | eof
deriving DecidableEq

/-- Whether a delivery is the end-of-session signal `(nil, nil, t)`. -/
def Delivery.isEof {α : Type} : Delivery α → Bool
  | .eof => true
  | _ => false

/-- The delivery made for one loop iteration that did not set `done`:
`callback(msg, nil, nil)` when `param->message != NULL`, otherwise
`callback(nil, error, nil)`. -/
def stepDelivery {α : Type} (r : StepResult α) : Delivery α :=
  match r.delivered with
  | some (some m) => Delivery.msg m
  | _ => Delivery.parseErr

/-- Fuelled unfolding of the dispatch loop of `Fjson_rpc`.  Each iteration
that continues consumes at least the marker bytes from the stream, so
`s.length + 1` units of fuel always suffice (`Fjson_rpc_unfold` below
establishes that the wrapper satisfies the loop's recursion exactly). -/
def Fjson_rpc_loop {α : Type} (jsonLoads : List Nat → Option α) :
    Nat → List Nat → List (Delivery α)
  | 0, _ => [Delivery.eof]
  | fuel + 1, s =>
    if s = [] then [Delivery.eof]
    else
      let r := json_rpc_callback jsonLoads s
      if r.done then [Delivery.eof]
      else stepDelivery r :: Fjson_rpc_loop jsonLoads fuel r.rest

/-- Model of the dispatch loop of `Fjson_rpc` from `src/json.c`: the list of
deliveries made to the handler.  The loop runs while `!param->done` and the
process is alive (an empty remaining stream models process death with no
further bytes), and after the loop always delivers `(nil, nil, t)` once. -/
def Fjson_rpc {α : Type} (jsonLoads : List Nat → Option α) (s : List Nat) :
    List (Delivery α) :=
  Fjson_rpc_loop jsonLoads (s.length + 1) s

/-- The mutable fields of `struct json_rpc_state` relevant to the handle
lifecycle: whether `state->handle` is still non-`NULL`, the `done` and
`cancel_send` flags, and the number of `handle->close` calls performed. -/
structure json_rpc_state where
  handle : Bool
  done : Bool
  cancel_send : Bool
  closeCount : Nat
deriving DecidableEq

/-- The state established by `Fjson_rpc_connection` after a successful
spawn. -/
def initState : json_rpc_state := ⟨true, false, false, 0⟩

/-- Model of `Fjson_rpc_shutdown`: set `cancel_send`, then, if the timed
lock acquisition succeeds and the handle is not the sentinel, call
`cancel_recv`.  Returns the new state, whether `cancel_recv` was called, and
the signalled error (always `none`: the function always returns `Qnil`).
It never calls `close` and never clears the handle. -/
def Fjson_rpc_shutdown (lockOk : Bool) (st : json_rpc_state) :
    json_rpc_state × Bool × Option String :=
  let st1 : json_rpc_state := ⟨st.handle, st.done, true, st.closeCount⟩
  if lockOk && st1.handle then (st1, true, none) else (st1, false, none)

/-- Model of the teardown at the end of `Fjson_rpc`: after the final
delivery, `pthread_mutex_timedlock` with a 1 s timeout; on success close the
handle and set the `NULL` sentinel; on timeout the code does nothing
(the source marks this with `TODO: what if mutex_lock fails?`). -/
def json_rpc_teardown (lockOk : Bool) (st : json_rpc_state) : json_rpc_state :=
  if lockOk then ⟨false, st.done, st.cancel_send, st.closeCount + 1⟩ else st

/-- Model of `json_rpc_send_callback`: under a successful 5 ms lock
acquisition with a live handle, build the framed buffer and issue exactly
one `send` call for it; `res` is 0 only when the reported byte count equals
the full frame length.  Returns the (unchanged) state, the list of buffers
passed to `send`, and `param->res`. -/
def json_rpc_send_callback (lockOk : Bool) (bytesSent : Nat) (payload : List Nat)
    (st : json_rpc_state) : json_rpc_state × List (List Nat) × Int :=
  if lockOk && st.handle then
    (st, [frame_message payload],
      if bytesSent = (frame_message payload).length then 0 else -1)
  else (st, [], -1)

/-- Model of `Fjson_rpc_send`: run the send callback and signal
`"Failed to send message"` exactly when `params.res < 0`. -/
def Fjson_rpc_send (lockOk : Bool) (bytesSent : Nat) (payload : List Nat)
    (st : json_rpc_state) : json_rpc_state × List (List Nat) × Except String Unit :=
  let r := json_rpc_send_callback lockOk bytesSent payload st
  (r.1, r.2.1, if r.2.2 < 0 then Except.error "Failed to send message" else Except.ok ())

/-- Capacity of the stderr capture buffer, `ERROR_BUFFER_SIZE`. -/
def ERROR_BUFFER_SIZE : Nat := 1024 * 1024 * 4

/-- The stderr capture buffer: the byte array `error_buffer` (as a total
function on indices; the C array has `ERROR_BUFFER_SIZE + 1` bytes) and the
write cursor `error_buffer_read`. -/
structure errBufState where
  buf : Nat → Nat
  readCount : Nat

/-- Write the bytes of `c` into the array `f` starting at offset `off`. -/
def writeBytes (f : Nat → Nat) (off : Nat) (c : List Nat) : Nat → Nat :=
  fun i => if off ≤ i ∧ i < off + c.length then c.getD (i - off) 0 else f i

/-- Length `strlen`-style scan: number of non-NUL bytes of `f` starting at
index `i`, scanning at most `fuel` bytes. -/
def cstrLen (f : Nat → Nat) : Nat → Nat → Nat
  | _, 0 => 0
  | i, fuel + 1 => if f i = 0 then 0 else cstrLen f (i + 1) fuel + 1

/-- Model of `strcpy (error_buffer, error_buffer + ERROR_BUFFER_SIZE / 2)`:
copy bytes from the midpoint up to and including the first NUL byte
(the scan is capped at the end of the allocated region); all later
destination bytes keep their old values. -/
def strcpyHalf (f : Nat → Nat) : Nat → Nat :=
  let len := cstrLen f (ERROR_BUFFER_SIZE / 2) (ERROR_BUFFER_SIZE / 2 + 1)
  fun i => if i ≤ len then f (ERROR_BUFFER_SIZE / 2 + i) else f i

/-- Model of the stderr handling of one `recv` inside `read_stdout`: the
chunk (capped by the remaining space handed to `recv` via `stderr_size`) is
written at the cursor, the cursor advances by the received count, and on
reaching the capacity the code halves the cursor and runs the `strcpy`.
The received chunk `chunk.take (…)` is written out in full at each use
site (the C code computes it once; the model is pure, so this is
equivalent). -/
def read_stdout_capture (st : errBufState) (chunk : List Nat) : errBufState :=
  if st.readCount + (chunk.take (ERROR_BUFFER_SIZE - st.readCount)).length
      = ERROR_BUFFER_SIZE then
    ⟨strcpyHalf (writeBytes st.buf st.readCount
        (chunk.take (ERROR_BUFFER_SIZE - st.readCount))),
      ERROR_BUFFER_SIZE / 2⟩
  else
    ⟨writeBytes st.buf st.readCount (chunk.take (ERROR_BUFFER_SIZE - st.readCount)),
      st.readCount + (chunk.take (ERROR_BUFFER_SIZE - st.readCount)).length⟩

/-- A diagnostic chunk of exactly `ERROR_BUFFER_SIZE` bytes whose second
half starts with a NUL byte: 2 MiB of byte 7, one byte 0, then byte 9. -/
def badChunk : List Nat :=
  List.replicate (ERROR_BUFFER_SIZE / 2) 7 ++ 0 :: List.replicate (ERROR_BUFFER_SIZE / 2 - 1) 9

/-- Minimal universe of Lisp objects for the keyword-argument parser;
`EQ` on interned symbols is name equality, so `DecidableEq` models `EQ`. -/
inductive LObj where
  | sym (name : String)
  | num (n : Int)
  | other (id : Nat)
deriving DecidableEq

/-- The `enum json_object_type` of `src/json.c`. -/
inductive JsonObjectType where
  | hashtable
  | alist
  | plist
deriving DecidableEq

/-- The `enum json_array_type` of `src/json.c`. -/
inductive JsonArrayType where
  | array
  | list
deriving DecidableEq

/-- The `struct json_configuration` of `src/json.c`. -/
structure json_configuration where
  object_type : JsonObjectType
  array_type : JsonArrayType
  null_object : LObj
  false_object : LObj
deriving DecidableEq

/-- Errors signalled by `json_parse_args`: `wrong_type_argument (Qplistp, …)`
for an odd-length argument list, and `wrong_choice` for an unknown keyword or
an invalid keyword value. -/
inductive JsonArgsError where
  | wrongTypeArgument
  | wrongChoice (v : LObj)
deriving DecidableEq

/-- The keyword symbol `:object-type`. -/
def QCobject_type : LObj := .sym ":object-type"

/-- The keyword symbol `:array-type`. -/
def QCarray_type : LObj := .sym ":array-type"

/-- The keyword symbol `:null-object`. -/
def QCnull_object : LObj := .sym ":null-object"

/-- The keyword symbol `:false-object`. -/
def QCfalse_object : LObj := .sym ":false-object"

/-- The symbol `hash-table`. -/
def Qhash_table : LObj := .sym "hash-table"

/-- The symbol `alist`. -/
def Qalist : LObj := .sym "alist"

/-- The symbol `plist`. -/
def Qplist : LObj := .sym "plist"

/-- The symbol `array`. -/
def Qarray : LObj := .sym "array"

/-- The symbol `list`. -/
def Qlist : LObj := .sym "list"

/-- One loop body of `json_parse_args`: dispatch on the keyword (respecting
`parse_object_types`) and either update the configuration or signal. -/
def processPair (parseObjectTypes : Bool) (conf : json_configuration)
    (key value : LObj) : Except JsonArgsError json_configuration :=
  if parseObjectTypes ∧ key = QCobject_type then
    if value = Qhash_table then
      .ok ⟨.hashtable, conf.array_type, conf.null_object, conf.false_object⟩
    else if value = Qalist then
      .ok ⟨.alist, conf.array_type, conf.null_object, conf.false_object⟩
    else if value = Qplist then
      .ok ⟨.plist, conf.array_type, conf.null_object, conf.false_object⟩
    else .error (.wrongChoice value)
  else if parseObjectTypes ∧ key = QCarray_type then
    if value = Qarray then
      .ok ⟨conf.object_type, .array, conf.null_object, conf.false_object⟩
    else if value = Qlist then
      .ok ⟨conf.object_type, .list, conf.null_object, conf.false_object⟩
    else .error (.wrongChoice value)
  else if key = QCnull_object then
    .ok ⟨conf.object_type, conf.array_type, value, conf.false_object⟩
  else if key = QCfalse_object then
    .ok ⟨conf.object_type, conf.array_type, conf.null_object, value⟩
  else .error (.wrongChoice value)

/-- Group an argument list into consecutive keyword/value pairs. -/
def toPairs : List LObj → List (LObj × LObj)
  | k :: v :: rest => (k, v) :: toPairs rest
  | _ => []

/-- Process keyword/value pairs in the given order, threading the
configuration and propagating the first signalled error. -/
def parseArgsLoop (pot : Bool) :
    List (LObj × LObj) → json_configuration → Except JsonArgsError json_configuration
  | [], conf => .ok conf
  | (k, v) :: rest, conf =>
    match processPair pot conf k v with
    | .ok c => parseArgsLoop pot rest c
    | .error e => .error e

/-- Model of `json_parse_args` from `src/json.c`: reject odd-length argument
lists, then iterate `for (i = nargs; i > 0; i -= 2)`, i.e. process the pairs
from the back so that values appearing first take precedence. -/
def json_parse_args (args : List LObj) (conf : json_configuration) (pot : Bool) :
    Except JsonArgsError json_configuration :=
  if args.length % 2 ≠ 0 then .error .wrongTypeArgument
  else parseArgsLoop pot (toPairs args).reverse conf

/-- Modelled from the spec: a stand-in for the external JSON codec (jansson's
`json_loads`, outside `src/`, specified only at its boundary in §6 of the
spec): it decodes the JSON text `true` successfully and fails on every other
input — in particular on the empty input, which the spec classifies as a
`prematureEnd` decode failure. -/
def Dex : List Nat → Option Unit :=
  fun p => if p = strBytes "true" then some () else none

/-- The compact serialization bytes of the spec's example message. -/
def pingPayload : List Nat := strBytes "\x7b\"id\":1,\"method\":\"ping\"\x7d"

/-- The default configuration `{json_object_hashtable, json_array_array,
QCnull, QCfalse}` used by every caller of `json_parse_args`. -/
def defaultConf : json_configuration :=
  ⟨.hashtable, .array, .sym ":null", .sym ":false"⟩

/-- Characterization of the `strstr` model: the needle is found exactly when
it is an infix of the haystack. -/
theorem hasInfix_iff (needle s : List Nat) : hasInfix needle s = true ↔ needle <:+: s := by
  induction s with
  | nil => simp [hasInfix, List.infix_nil, List.isEmpty_iff]
  | cons x xs ih =>
    simp [hasInfix, List.infix_cons_iff, List.isPrefixOf_iff_prefix, ih]

/-- Negative characterization of the `strstr` model. -/
theorem hasInfix_eq_false_iff (needle s : List Nat) :
    hasInfix needle s = false ↔ ¬needle <:+: s := by
  rw [← hasInfix_iff]
  cases hasInfix needle s <;> simp

/-- A needle longer than the haystack is never found. -/
theorem hasInfix_eq_false_of_length_lt {needle s : List Nat}
    (h : s.length < needle.length) : hasInfix needle s = false := by
  rw [hasInfix_eq_false_iff]
  intro hinf
  have := hinf.sublist.length_le
  omega

/-- If the needle is not in a list it is not in any prefix of it. -/
theorem hasInfix_eq_false_mono {needle a s : List Nat} (hpre : a <+: s)
    (h : hasInfix needle s = false) : hasInfix needle a = false := by
  rw [hasInfix_eq_false_iff] at h ⊢
  exact fun hinf => h (hinf.trans hpre.isInfix)

/-- The delimiter starts with CR, so it cannot occur in CR-free bytes. -/
theorem hasInfix_crlf_of_not_mem {w : List Nat} (h13 : 13 ∉ w) :
    hasInfix crlfcrlf w = false := by
  rw [hasInfix_eq_false_iff]
  intro hinf
  exact h13 (hinf.sublist.subset (by simp [crlfcrlf]))

/-- The delimiter cannot occur in CR-free bytes followed by fewer than four
further bytes. -/
theorem hasInfix_crlf_append :
    ∀ (a b : List Nat), 13 ∉ a → b.length < 4 → hasInfix crlfcrlf (a ++ b) = false := by
  intro a
  induction a with
  | nil =>
    intro b _ hb
    simpa using hasInfix_eq_false_of_length_lt (by simp [crlfcrlf]; omega)
  | cons x a' ih =>
    intro b h13 hb
    simp only [List.mem_cons, not_or] at h13
    rw [List.cons_append, hasInfix_eq_false_iff]
    intro hinf
    rcases List.infix_cons_iff.mp hinf with h2 | h2
    · obtain ⟨t', ht⟩ := h2
      rw [crlfcrlf] at ht
      simp only [List.cons_append, List.cons.injEq] at ht
      exact h13.1 ht.1
    · exact (hasInfix_eq_false_iff _ _).mp (ih b h13.2 hb) h2

/-- Key exactness lemma for `read_until`: when the needle first appears in
the stream exactly at the end of `u`, the scan consumes `u` (returning it as
the accumulated bytes) and leaves `v`. -/
theorem read_until_go (needle u v : List Nat)
    (hu : hasInfix needle u = true)
    (hmin : ∀ w, w <+: u → w ≠ u → hasInfix needle w = false) :
    ∀ (d a : List Nat), a ++ d = u → read_until needle (d ++ v) a = some (u, v) := by
  intro d
  induction d with
  | nil =>
    intro a ha
    simp only [List.append_nil] at ha
    subst ha
    cases v with
    | nil => simp [read_until, hu]
    | cons c cs => simp [read_until, hu]
  | cons x d' ih =>
    intro a ha
    have hane : a ≠ u := by
      intro hh
      subst hh
      have := congrArg List.length ha
      simp at this
    have hfalse : hasInfix needle a = false := hmin a ⟨x :: d', ha⟩ hane
    rw [List.cons_append, read_until, hfalse]
    simp only [Bool.false_eq_true, if_false]
    exact ih (a ++ [x]) (by simpa [List.append_assoc] using ha)

/-- Exactness of `read_until` from an empty accumulator. -/
theorem read_until_exact (needle u v : List Nat)
    (hu : hasInfix needle u = true)
    (hmin : ∀ w, w <+: u → w ≠ u → hasInfix needle w = false) :
    read_until needle (u ++ v) [] = some (u, v) :=
  read_until_go needle u v hu hmin u [] rfl

/-- Helper for the failure case of `read_until`. -/
theorem read_until_none_go (needle s : List Nat) (h : hasInfix needle s = false) :
    ∀ (d a : List Nat), a ++ d = s → read_until needle d a = none := by
  intro d
  induction d with
  | nil =>
    intro a ha
    simp only [List.append_nil] at ha
    subst ha
    simp [read_until, h]
  | cons x d' ih =>
    intro a ha
    have hfa : hasInfix needle a = false :=
      hasInfix_eq_false_mono ⟨x :: d', ha⟩ h
    rw [read_until, hfa]
    simp only [Bool.false_eq_true, if_false]
    exact ih (a ++ [x]) (by simpa [List.append_assoc] using ha)

/-- A scan over a stream that never contains the needle exhausts the stream
and fails (models `read_stdout` returning 0 before the needle appeared). -/
theorem read_until_none (needle s : List Nat) (h : hasInfix needle s = false) :
    read_until needle s [] = none :=
  read_until_none_go needle s h s [] rfl

/-- The stream left over by a successful scan is no longer than the input. -/
theorem read_until_rest_length_le (needle : List Nat) :
    ∀ (s acc a r : List Nat), read_until needle s acc = some (a, r) → r.length ≤ s.length := by
  intro s
  induction s with
  | nil =>
    intro acc a r h
    rw [read_until] at h
    by_cases hc : hasInfix needle acc = true
    · simp only [hc, if_true, Option.some.injEq, Prod.mk.injEq] at h
      rw [← h.2]
    · simp [hc] at h
  | cons b rest ih =>
    intro acc a r h
    rw [read_until] at h
    by_cases hc : hasInfix needle acc = true
    · simp only [hc, if_true, Option.some.injEq, Prod.mk.injEq] at h
      rw [← h.2]
    · simp only [hc, if_false] at h
      have := ih (acc ++ [b]) a r h
      simp only [List.length_cons]
      omega

/-- A scan starting from an accumulator that does not yet contain the needle
consumes at least one byte. -/
theorem read_until_rest_length_lt (needle : List Nat) {s acc a r : List Nat}
    (hacc : hasInfix needle acc = false) (h : read_until needle s acc = some (a, r)) :
    r.length < s.length := by
  cases s with
  | nil => rw [read_until, hacc] at h; simp at h
  | cons b rest =>
    rw [read_until, hacc] at h
    simp only [Bool.false_eq_true, if_false] at h
    have := read_until_rest_length_le needle rest (acc ++ [b]) a r h
    simp only [List.length_cons]
    omega

/-- When an iteration of the frame reader does not set `done`, it consumed at
least the marker bytes, so the remaining stream is strictly shorter. -/
theorem json_rpc_callback_rest_lt {α : Type} (D : List Nat → Option α) (s : List Nat)
    (hd : (json_rpc_callback D s).done = false) :
    (json_rpc_callback D s).rest.length < s.length := by
  have hemp : hasInfix contentLengthMarker [] = false := by decide
  rcases h1 : read_until contentLengthMarker s [] with _ | ⟨a1, s1⟩
  · simp [json_rpc_callback, h1] at hd
  · have hlt1 : s1.length < s.length := read_until_rest_length_lt _ hemp h1
    rcases h2 : read_until crlfcrlf s1 [] with _ | ⟨a2, s2⟩
    · simp [json_rpc_callback, h1, h2] at hd
    · have hle2 : s2.length ≤ s1.length := read_until_rest_length_le _ _ _ _ _ h2
      by_cases hc : sizeT (strtol10 a2) ≤ s2.length
      · simp only [json_rpc_callback, h1, h2, hc, if_true]
        simp only [List.length_drop]
        omega
      · simp [json_rpc_callback, h1, h2, hc] at hd

/-- The fuelled digit printer agrees with `Nat.digits` once the fuel covers
the number. -/
theorem natDecimalAux_eq : ∀ (fuel n : Nat), n ≤ fuel →
    natDecimalAux fuel n = ((Nat.digits 10 n).map (fun d => d + 48)).reverse := by
  intro fuel
  induction fuel with
  | zero =>
    intro n hn
    have h0 : n = 0 := by omega
    subst h0
    simp [natDecimalAux]
  | succ f ih =>
    intro n hn
    by_cases h0 : n = 0
    · subst h0; simp [natDecimalAux]
    · rw [natDecimalAux]
      simp only [h0, if_false]
      have hdiv : n / 10 ≤ f := by
        have := Nat.div_lt_self (Nat.pos_of_ne_zero h0) (by norm_num : 1 < 10)
        omega
      rw [ih (n / 10) hdiv,
        Nat.digits_def' (by norm_num : (1 : Nat) < 10) (Nat.pos_of_ne_zero h0)]
      simp

/-- Every byte produced by the fuelled digit printer is an ASCII digit. -/
theorem natDecimalAux_bytes : ∀ (fuel n b : Nat),
    b ∈ natDecimalAux fuel n → 48 ≤ b ∧ b ≤ 57 := by
  intro fuel
  induction fuel with
  | zero => intro n b hb; simp [natDecimalAux] at hb
  | succ f ih =>
    intro n b hb
    rw [natDecimalAux] at hb
    by_cases h0 : n = 0
    · simp [h0] at hb
    · simp only [h0, if_false, List.mem_append, List.mem_singleton] at hb
      rcases hb with hb | hb
      · exact ih _ _ hb
      · have : n % 10 < 10 := Nat.mod_lt _ (by norm_num)
        omega

/-- Every byte of the printed decimal is an ASCII digit. -/
theorem natDecimal_bytes {n b : Nat} (hb : b ∈ natDecimal n) : 48 ≤ b ∧ b ≤ 57 := by
  unfold natDecimal at hb
  by_cases h0 : n = 0
  · simp [h0] at hb; omega
  · simp only [h0, if_false] at hb
    exact natDecimalAux_bytes n n b hb

/-- The printed decimal of a number is never empty. -/
theorem natDecimal_ne_nil (n : Nat) : natDecimal n ≠ [] := by
  unfold natDecimal
  by_cases h0 : n = 0
  · simp [h0]
  · simp only [h0, if_false]
    cases n with
    | zero => exact absurd rfl h0
    | succ f =>
      rw [natDecimalAux]
      simp

/-- The digit-run accumulation of `strtol` over ASCII digit bytes followed by
a non-digit computes the base-10 value via Horner's rule. -/
theorem strtolDigits_digitBytes :
    ∀ (mb r : List Nat) (acc : Nat),
      (∀ b ∈ mb, 48 ≤ b ∧ b ≤ 57) →
      (∀ b, r.head? = some b → isDigitB b = false) →
      strtolDigits (mb ++ r) acc =
        acc * 10 ^ mb.length + Nat.ofDigits 10 ((mb.map (fun b => b - 48)).reverse) := by
  intro mb
  induction mb with
  | nil =>
    intro r acc _ hr
    cases r with
    | nil => simp [strtolDigits, Nat.ofDigits_nil]
    | cons b bs =>
      have hb := hr b rfl
      simp [strtolDigits, hb, Nat.ofDigits_nil]
  | cons b mb' ih =>
    intro r acc hm hr
    have hb := hm b (by simp)
    have hdig : isDigitB b = true := by simp [isDigitB]; omega
    rw [List.cons_append, strtolDigits, hdig]
    simp only [if_true]
    rw [ih r (acc * 10 + (b - 48)) (fun x hx => hm x (by simp [hx])) hr]
    simp only [List.map_cons, List.reverse_cons, Nat.ofDigits_append,
      Nat.ofDigits_singleton, List.length_cons, List.length_reverse, List.length_map]
    ring

/-- Reading back the printed decimal digits of `n` yields `n`. -/
theorem ofDigits_natDecimal (n : Nat) :
    Nat.ofDigits 10 (((natDecimal n).map (fun b => b - 48)).reverse) = n := by
  by_cases h0 : n = 0
  · subst h0; simp [natDecimal, Nat.ofDigits_singleton]
  · rw [natDecimal]
    simp only [h0, if_false]
    rw [natDecimalAux_eq n n le_rfl, List.map_reverse, List.reverse_reverse,
      List.map_map]
    have hid : ((fun b => b - 48) ∘ fun d => d + 48) = id := by
      funext d; simp
    rw [hid, List.map_id, Nat.ofDigits_digits]

/-- `strtol`'s digit accumulation reads the printed decimal of `n` back as
`n` when followed by a non-digit byte (or nothing). -/
theorem strtolDigits_natDecimal (n : Nat) (r : List Nat)
    (hr : ∀ b, r.head? = some b → isDigitB b = false) :
    strtolDigits (natDecimal n ++ r) 0 = n := by
  rw [strtolDigits_digitBytes (natDecimal n) r 0 (fun b hb => natDecimal_bytes hb) hr]
  simp [ofDigits_natDecimal]

/-- `strtol` applied to the header bytes between marker and delimiter parses
exactly the printed length (the leading space is skipped as whitespace and
the scan stops at the CR). -/
theorem strtol10_headerTail (n : Nat) (hn : n < 2 ^ 63) :
    strtol10 (headerTail n) = (n : Int) := by
  obtain ⟨d, ds, hds⟩ : ∃ d ds, natDecimal n = d :: ds := by
    cases h : natDecimal n with
    | nil => exact absurd h (natDecimal_ne_nil n)
    | cons d ds => exact ⟨d, ds, rfl⟩
  have hd : 48 ≤ d ∧ d ≤ 57 := natDecimal_bytes (by rw [hds]; simp)
  have hval : strtolDigits (natDecimal n ++ crlfcrlf) 0 = n :=
    strtolDigits_natDecimal n crlfcrlf
      (by intro b hb; simp [crlfcrlf] at hb; simp [isDigitB]; omega)
  rw [headerTail, strtol10]
  simp only [hds, List.cons_append, List.dropWhile_cons]
  have h32 : isSpaceB 32 = true := by decide
  have hdnot : isSpaceB d = false := by simp [isSpaceB]; omega
  rw [h32]
  simp only [if_true, List.dropWhile_cons, hdnot, Bool.false_eq_true, if_false]
  have h43 : ¬d = 43 := by omega
  have h45 : ¬d = 45 := by omega
  simp only [h43, h45, if_false]
  rw [show d :: (ds ++ crlfcrlf) = natDecimal n ++ crlfcrlf by rw [hds, List.cons_append]]
  rw [hval]
  have hmin : min LONG_MAX (n : Int) = (n : Int) := by
    apply min_eq_right
    rw [LONG_MAX]
    have : (n : Int) < 2 ^ 63 := by exact_mod_cast hn
    omega
  rw [hmin]
  apply max_eq_right
  rw [LONG_MIN]
  have : (0 : Int) ≤ (n : Int) := Int.natCast_nonneg n
  have : (0 : Int) < 2 ^ 63 := by norm_num
  omega

/-- Conversion to `size_t` is the identity below `2^64`. -/
theorem sizeT_natCast (n : Nat) (hn : (n : Int) < 2 ^ 64) : sizeT (n : Int) = n := by
  rw [sizeT, Int.emod_eq_of_lt (Int.natCast_nonneg n) hn, Int.toNat_natCast]

/-- The marker is never found in a proper prefix of itself (it is too
short). -/
theorem marker_min : ∀ w, w <+: contentLengthMarker → w ≠ contentLengthMarker →
    hasInfix contentLengthMarker w = false := by
  intro w hpre hne
  apply hasInfix_eq_false_of_length_lt
  have h1 := hpre.length_le
  have h2 : w.length ≠ contentLengthMarker.length := by
    intro hh; exact hne (hpre.eq_of_length hh)
  omega

/-- No CR occurs before the delimiter inside the header tail. -/
theorem not_mem_headerFront (n : Nat) : 13 ∉ 32 :: natDecimal n := by
  intro h
  rcases List.mem_cons.mp h with h | h
  · simp at h
  · have := natDecimal_bytes h
    omega

/-- The delimiter occurs in the header tail (at its end). -/
theorem headerTail_ends_crlf (n : Nat) : hasInfix crlfcrlf (headerTail n) = true := by
  rw [hasInfix_iff]
  exact ⟨32 :: natDecimal n, [], by simp [headerTail]⟩

/-- The first occurrence of the delimiter in CR-free bytes followed by the
delimiter is exactly at the end: no proper prefix contains it. -/
theorem crlf_min_hit (a : List Nat) (h13 : 13 ∉ a) :
    ∀ w, w <+: a ++ crlfcrlf → w ≠ a ++ crlfcrlf → hasInfix crlfcrlf w = false := by
  intro w hpre hne
  have hw : w = (a ++ crlfcrlf).take w.length := List.prefix_iff_eq_take.mp hpre
  have hlen : w.length < (a ++ crlfcrlf).length :=
    lt_of_le_of_ne hpre.length_le (fun hh => hne (hpre.eq_of_length hh))
  simp only [List.length_append, crlfcrlf, List.length_cons, List.length_nil] at hlen
  rw [hw, List.take_append_eq_append_take]
  have h13' : 13 ∉ List.take w.length a :=
    fun hmem => h13 (List.take_subset _ _ hmem)
  by_cases hcase : w.length ≤ a.length
  · have hz : w.length - a.length = 0 := by omega
    rw [hz]
    simp only [List.take_zero, List.append_nil]
    exact hasInfix_crlf_of_not_mem h13'
  · apply hasInfix_crlf_append _ _ h13'
    simp only [List.length_take, crlfcrlf, List.length_cons, List.length_nil]
    omega

/-- The delimiter does not occur in any proper prefix of the header tail:
its first occurrence is exactly at the end. -/
theorem headerTail_min (n : Nat) : ∀ w, w <+: headerTail n → w ≠ headerTail n →
    hasInfix crlfcrlf w = false := by
  have hform : headerTail n = (32 :: natDecimal n) ++ crlfcrlf := by
    simp [headerTail]
  rw [hform]
  exact crlf_min_hit _ (not_mem_headerFront n)

/-- Structural decomposition of the framed buffer into marker, header tail
and payload. -/
theorem frame_message_decomp (p : List Nat) :
    frame_message p = contentLengthMarker ++ (headerTail p.length ++ p) := by
  have h1 : strBytes "Content-Length: " = contentLengthMarker ++ [32] := by decide
  have h2 : strBytes "\r\n\r\n" = crlfcrlf := by decide
  rw [frame_message, h1, h2, headerTail]
  simp [List.append_assoc]

/-- Central exactness theorem for the reader: on a stream that starts with a
framed payload, one iteration of `json_rpc_callback` consumes exactly the
frame, computes `content_length` equal to the payload's byte length, hands
exactly the payload bytes to the decoder and leaves the rest of the stream
untouched. -/
theorem json_rpc_callback_frame {α : Type} (D : List Nat → Option α) (p rest : List Nat)
    (hp : p.length < 2 ^ 63) :
    json_rpc_callback D (frame_message p ++ rest) = ⟨false, some (D p), rest⟩ := by
  have hstream : frame_message p ++ rest =
      contentLengthMarker ++ (headerTail p.length ++ (p ++ rest)) := by
    rw [frame_message_decomp]
    simp [List.append_assoc]
  have h1 : read_until contentLengthMarker (frame_message p ++ rest) [] =
      some (contentLengthMarker, headerTail p.length ++ (p ++ rest)) := by
    rw [hstream]
    exact read_until_exact _ _ _ (by decide) marker_min
  have h2 : read_until crlfcrlf (headerTail p.length ++ (p ++ rest)) [] =
      some (headerTail p.length, p ++ rest) :=
    read_until_exact _ _ _ (headerTail_ends_crlf _) (headerTail_min _)
  have h3 : sizeT (strtol10 (headerTail p.length)) = p.length := by
    rw [strtol10_headerTail _ hp]
    apply sizeT_natCast
    have h4 : (p.length : Int) < 2 ^ 63 := by exact_mod_cast hp
    have h5 : (2 : Int) ^ 63 < 2 ^ 64 := by norm_num
    omega
  simp only [json_rpc_callback, h1, h2, h3]
  have h6 : p.length ≤ (p ++ rest).length := by simp
  simp [h6, List.take_left, List.drop_left]

/-- The fuelled loop is independent of the fuel once the fuel exceeds the
stream length (each continuing iteration strictly shrinks the stream). -/
theorem Fjson_rpc_loop_fuel {α : Type} (D : List Nat → Option α) :
    ∀ (f1 f2 : Nat) (s : List Nat), s.length < f1 → s.length < f2 →
      Fjson_rpc_loop D f1 s = Fjson_rpc_loop D f2 s := by
  intro f1
  induction f1 with
  | zero => intro f2 s h1 _; omega
  | succ f ih =>
    intro f2 s h1 h2
    cases f2 with
    | zero => omega
    | succ g =>
      rw [Fjson_rpc_loop, Fjson_rpc_loop]
      by_cases hs : s = []
      · simp [hs]
      · simp only [hs, if_false]
        by_cases hr : (json_rpc_callback D s).done
        · simp [hr]
        · simp only [hr, Bool.false_eq_true, if_false]
          have hlt := json_rpc_callback_rest_lt D s (by simpa using hr)
          rw [ih g (json_rpc_callback D s).rest (by omega) (by omega)]

/-- The dispatch-loop model satisfies the loop's recursion exactly: this is
the adequacy statement showing the fuel wrapper implements the unbounded
`while (!param->done && handle->isalive (handle))` loop followed by the
final delivery. -/
theorem Fjson_rpc_unfold {α : Type} (D : List Nat → Option α) (s : List Nat) :
    Fjson_rpc D s =
      if s = [] then [Delivery.eof]
      else
        if (json_rpc_callback D s).done then [Delivery.eof]
        else stepDelivery (json_rpc_callback D s) ::
          Fjson_rpc D (json_rpc_callback D s).rest := by
  rw [Fjson_rpc, Fjson_rpc_loop]
  by_cases hs : s = []
  · simp [hs]
  · simp only [hs, if_false]
    by_cases hr : (json_rpc_callback D s).done
    · simp [hr]
    · simp only [hr, Bool.false_eq_true, if_false]
      have hlt := json_rpc_callback_rest_lt D s (by simpa using hr)
      rw [Fjson_rpc, Fjson_rpc_loop_fuel D s.length ((json_rpc_callback D s).rest.length + 1)
        (json_rpc_callback D s).rest (by omega) (by omega)]

/-- Claim C1, counterexample: the claim's example asserts that serializing
`\x7b"id":1,"method":"ping"\x7d` yields `N = 26`, but the compact
serialization is 24 bytes long, so the send path frames it with
`Content-Length: 24`, not `Content-Length: 26`. -/
theorem json_rpc_send_ping_counterexample :
    pingPayload.length = 24 ∧
    frame_message pingPayload = strBytes "Content-Length: 24\r\n\r\n" ++ pingPayload ∧
    frame_message pingPayload ≠ strBytes "Content-Length: 26\r\n\r\n" ++ pingPayload := by
  decide

/-- Claim C1 (amended: the example length is 24, not 26): under the locking
discipline the send path issues exactly one `send` call whose buffer is the
framed message; the frame is the ASCII header `"Content-Length: "` followed
by the decimal byte length, `"\r\n\r\n"`, and the payload; and the length
field is exact — the frame reader parses back precisely the payload bytes
from the framed buffer, for every payload and every stream continuation. -/
theorem json_rpc_send_single_frame_exact_length :
    (∀ (bytesSent : Nat) (p : List Nat) (st : json_rpc_state), st.handle = true →
      (json_rpc_send_callback true bytesSent p st).2.1 = [frame_message p]) ∧
    (∀ p : List Nat,
      frame_message p = contentLengthMarker ++ [32] ++ natDecimal p.length ++ crlfcrlf ++ p) ∧
    (∀ {α : Type} (D : List Nat → Option α) (p rest : List Nat), p.length < 2 ^ 63 →
      json_rpc_callback D (frame_message p ++ rest) = ⟨false, some (D p), rest⟩) := by
  refine ⟨?_, ?_, ?_⟩
  · intro bytesSent p st hh
    simp [json_rpc_send_callback, hh]
  · intro p
    rw [frame_message_decomp, headerTail]
    simp [List.append_assoc]
  · intro α D p rest hp
    exact json_rpc_callback_frame D p rest hp

/-- Witness for claim C1's theorem at the spec's example payload. -/
theorem json_rpc_send_single_frame_exact_length_witness :
    initState.handle = true ∧
    (json_rpc_send_callback true 0 pingPayload initState).2.1 = [frame_message pingPayload] ∧
    pingPayload.length < 2 ^ 63 ∧
    json_rpc_callback Dex (frame_message pingPayload ++ []) =
      ⟨false, some (Dex pingPayload), []⟩ :=
  ⟨rfl, json_rpc_send_single_frame_exact_length.1 0 pingPayload initState rfl,
    by decide,
    json_rpc_send_single_frame_exact_length.2.2 Dex pingPayload [] (by decide)⟩

/-- Claim C7: a short write (`bytes_sent < bytes_to_send`) leaves
`params.res < 0`, so `Fjson_rpc_send` signals `"Failed to send message"` to
its caller; the send path makes at most one `send` call (no partial-frame
retry) and leaves the session state — in particular the loop's `done`
flag — unchanged, so a short write never terminates the dispatch loop by
itself. -/
theorem short_write_reported_no_retry (lockOk : Bool) (bytesSent : Nat) (p : List Nat)
    (st : json_rpc_state) (hshort : bytesSent < (frame_message p).length) :
    (Fjson_rpc_send lockOk bytesSent p st).2.2 = Except.error "Failed to send message" ∧
    (Fjson_rpc_send lockOk bytesSent p st).1 = st ∧
    (Fjson_rpc_send lockOk bytesSent p st).2.1.length ≤ 1 := by
  have hne : ¬bytesSent = (frame_message p).length := by omega
  by_cases hl : (lockOk && st.handle) = true
  · simp [Fjson_rpc_send, json_rpc_send_callback, hl, hne]
  · simp [Fjson_rpc_send, json_rpc_send_callback, hl]

/-- Witness for claim C7's theorem: a zero-byte write of a framed `true`. -/
theorem short_write_reported_no_retry_witness :
    0 < (frame_message (strBytes "true")).length ∧
    (Fjson_rpc_send true 0 (strBytes "true") initState).2.2 =
      Except.error "Failed to send message" ∧
    (Fjson_rpc_send true 0 (strBytes "true") initState).1 = initState ∧
    (Fjson_rpc_send true 0 (strBytes "true") initState).2.1.length ≤ 1 := by
  have h := short_write_reported_no_retry true 0 (strBytes "true") initState (by decide)
  exact ⟨by decide, h.1, h.2.1, h.2.2⟩

/-- Claim C2, counterexample: a frame whose length field is the non-numeric
bytes `XYZ` does not terminate the session — the loop delivers a parse error
(for the empty payload produced by `strtol`'s result 0) and then continues,
successfully delivering the next well-formed frame before the single
end-of-session delivery. -/
theorem invalid_length_header_counterexample :
    Fjson_rpc Dex (strBytes "Content-Length:XYZ\r\n\r\n" ++ frame_message (strBytes "true")) =
      [Delivery.parseErr, Delivery.msg (), Delivery.eof] := by
  decide

/-- Claim C2 (amended): when the bytes between the marker and the delimiter
do not parse as a decimal integer, `strtol` yields 0, so the loop reads a
zero-length payload whose JSON decode fails; the handler receives
`(none, parseError, false)` and the loop continues with the rest of the
stream instead of treating the bad header as a fatal framing error. -/
theorem invalid_length_header_parse_error_continue {α : Type}
    (D : List Nat → Option α) (rest : List Nat) (hD : D [] = none) :
    Fjson_rpc D (strBytes "Content-Length:XYZ\r\n\r\n" ++ rest) =
      Delivery.parseErr :: Fjson_rpc D rest := by
  have h1 : read_until contentLengthMarker (strBytes "Content-Length:XYZ\r\n\r\n" ++ rest) [] =
      some (contentLengthMarker, (strBytes "XYZ" ++ crlfcrlf) ++ rest) := by
    rw [show strBytes "Content-Length:XYZ\r\n\r\n" =
      contentLengthMarker ++ (strBytes "XYZ" ++ crlfcrlf) from by decide, List.append_assoc]
    exact read_until_exact _ _ _ (by decide) marker_min
  have h2 : read_until crlfcrlf ((strBytes "XYZ" ++ crlfcrlf) ++ rest) [] =
      some (strBytes "XYZ" ++ crlfcrlf, rest) :=
    read_until_exact _ _ _ (by decide) (crlf_min_hit (strBytes "XYZ") (by decide))
  have h3 : sizeT (strtol10 (strBytes "XYZ" ++ crlfcrlf)) = 0 := by decide
  have hcb : json_rpc_callback D (strBytes "Content-Length:XYZ\r\n\r\n" ++ rest) =
      ⟨false, some (D []), rest⟩ := by
    simp only [json_rpc_callback, h1, h2, h3]
    simp
  rw [Fjson_rpc_unfold, hcb]
  have hne : strBytes "Content-Length:XYZ\r\n\r\n" ++ rest ≠ [] := by
    intro h
    have := congrArg List.length h
    simp [strBytes] at this
  simp [hne, stepDelivery, hD]

/-- Witness for claim C2's amended theorem. -/
theorem invalid_length_header_parse_error_continue_witness :
    Dex [] = none ∧
    Fjson_rpc Dex (strBytes "Content-Length:XYZ\r\n\r\n" ++ []) =
      Delivery.parseErr :: Fjson_rpc Dex [] :=
  ⟨rfl, invalid_length_header_parse_error_continue Dex [] rfl⟩

/-- Helper for claim C3 over the fuelled loop: every run ends with exactly
one end-of-session delivery, and it is the last delivery. -/
theorem Fjson_rpc_eof_once_aux {α : Type} (D : List Nat → Option α) :
    ∀ (fuel : Nat) (s : List Nat), ∃ pre : List (Delivery α),
      Fjson_rpc_loop D fuel s = pre ++ [Delivery.eof] ∧
      pre.countP Delivery.isEof = 0 := by
  intro fuel
  induction fuel with
  | zero => intro s; exact ⟨[], rfl, rfl⟩
  | succ f ih =>
    intro s
    rw [Fjson_rpc_loop]
    by_cases hs : s = []
    · rw [if_pos hs]; exact ⟨[], rfl, rfl⟩
    · rw [if_neg hs]
      by_cases hr : (json_rpc_callback D s).done
      · simp only [hr, if_true]
        exact ⟨[], rfl, rfl⟩
      · simp only [hr, Bool.false_eq_true, if_false]
        obtain ⟨pre, h1, h2⟩ := ih (json_rpc_callback D s).rest
        refine ⟨stepDelivery (json_rpc_callback D s) :: pre, ?_, ?_⟩
        · rw [h1, List.cons_append]
        · rw [List.countP_cons, h2]
          have hnotEof : (stepDelivery (json_rpc_callback D s)).isEof = false := by
            rw [stepDelivery]
            rcases (json_rpc_callback D s).delivered with _ | m
            · rfl
            · rcases m with _ | mm <;> rfl
          simp [hnotEof]

/-- Claim C3: for every decoder and every stream — hence regardless of
whether termination was caused by clean stream closure, a framing error, or
a shutdown-induced stream end — the dispatch loop delivers the end-of-session
triple `(none, none, true)` exactly once, and it is the final delivery. -/
theorem Fjson_rpc_eof_exactly_once_final {α : Type} (D : List Nat → Option α)
    (s : List Nat) :
    ∃ pre : List (Delivery α),
      Fjson_rpc D s = pre ++ [Delivery.eof] ∧ pre.countP Delivery.isEof = 0 :=
  Fjson_rpc_eof_once_aux D (s.length + 1) s

/-- Claim C8: a stream that is a strict prefix of a framed message — one that
ends mid-header or mid-payload — makes the dispatch loop terminate with no
message delivery for the partial frame: the loop's output is exactly the
single end-of-session delivery. -/
theorem premature_stream_end_terminates_without_delivery {α : Type}
    (D : List Nat → Option α) (p : List Nat) (k : Nat)
    (hp : p.length < 2 ^ 63) (hk : k < (frame_message p).length) :
    Fjson_rpc D ((frame_message p).take k) = [Delivery.eof] := by
  have hframe := frame_message_decomp p
  have hmlen : contentLengthMarker.length = 15 := by decide
  by_cases hk15 : k < 15
  · -- the stream ends before the marker is complete
    have hs : (frame_message p).take k = contentLengthMarker.take k := by
      rw [hframe, List.take_append_eq_append_take]
      have hz : k - contentLengthMarker.length = 0 := by omega
      rw [hz]
      simp
    have hnone : read_until contentLengthMarker ((frame_message p).take k) [] = none := by
      rw [hs]
      apply read_until_none
      apply hasInfix_eq_false_of_length_lt
      have hlt : (contentLengthMarker.take k).length ≤ k := by
        simp [List.length_take]
      omega
    rw [Fjson_rpc_unfold]
    have hdone : (json_rpc_callback D ((frame_message p).take k)).done = true := by
      simp [json_rpc_callback, hnone]
    split
    · rfl
    · simp [hdone]
  · -- the marker is complete
    push_neg at hk15
    have hs : (frame_message p).take k =
        contentLengthMarker ++ (headerTail p.length ++ p).take (k - 15) := by
      rw [hframe, List.take_append_eq_append_take, hmlen,
        List.take_of_length_le (by omega : contentLengthMarker.length ≤ k)]
    have hflen : (frame_message p).length =
        15 + ((headerTail p.length).length + p.length) := by
      rw [hframe]
      simp [hmlen]
    by_cases hkht : k - 15 < (headerTail p.length).length
    · -- the stream ends before the blank-line delimiter is complete
      have hsplit : (headerTail p.length ++ p).take (k - 15) =
          (headerTail p.length).take (k - 15) := by
        rw [List.take_append_eq_append_take]
        have hz : k - 15 - (headerTail p.length).length = 0 := by omega
        rw [hz]
        simp
      have h1 : read_until contentLengthMarker ((frame_message p).take k) [] =
          some (contentLengthMarker, (headerTail p.length).take (k - 15)) := by
        rw [hs, hsplit]
        exact read_until_exact _ _ _ (by decide) marker_min
      have h2 : read_until crlfcrlf ((headerTail p.length).take (k - 15)) [] = none := by
        apply read_until_none
        apply headerTail_min p.length
        · exact ⟨(headerTail p.length).drop (k - 15), List.take_append_drop _ _⟩
        · intro hh
          have := congrArg List.length hh
          simp only [List.length_take] at this
          omega
      have hdone : (json_rpc_callback D ((frame_message p).take k)).done = true := by
        simp [json_rpc_callback, h1, h2]
      rw [Fjson_rpc_unfold]
      split
      · rfl
      · simp [hdone]
    · -- the header is complete and the stream ends mid-payload
      push_neg at hkht
      have hm : k - 15 - (headerTail p.length).length < p.length := by omega
      have hsplit : (headerTail p.length ++ p).take (k - 15) =
          headerTail p.length ++ p.take (k - 15 - (headerTail p.length).length) := by
        rw [List.take_append_eq_append_take,
          List.take_of_length_le (by omega : (headerTail p.length).length ≤ k - 15)]
      have h1 : read_until contentLengthMarker ((frame_message p).take k) [] =
          some (contentLengthMarker,
            headerTail p.length ++ p.take (k - 15 - (headerTail p.length).length)) := by
        rw [hs, hsplit]
        exact read_until_exact _ _ _ (by decide) marker_min
      have h2 : read_until crlfcrlf
          (headerTail p.length ++ p.take (k - 15 - (headerTail p.length).length)) [] =
          some (headerTail p.length, p.take (k - 15 - (headerTail p.length).length)) :=
        read_until_exact _ _ _ (headerTail_ends_crlf _) (headerTail_min _)
      have h3 : sizeT (strtol10 (headerTail p.length)) = p.length := by
        rw [strtol10_headerTail _ hp]
        apply sizeT_natCast
        have h4 : (p.length : Int) < 2 ^ 63 := by exact_mod_cast hp
        have h5 : (2 : Int) ^ 63 < 2 ^ 64 := by norm_num
        omega
      have hdone : (json_rpc_callback D ((frame_message p).take k)).done = true := by
        simp only [json_rpc_callback, h1, h2, h3]
        have hcond : ¬(p.length ≤ k - 15 - (headerTail p.length).length) := by omega
        simp [hcond]
      rw [Fjson_rpc_unfold]
      split
      · rfl
      · simp [hdone]

/-- Witness for claim C8's theorem: a framed `true` cut off two bytes into
its payload. -/
theorem premature_stream_end_terminates_without_delivery_witness :
    (strBytes "true").length < 2 ^ 63 ∧
    23 < (frame_message (strBytes "true")).length ∧
    Fjson_rpc Dex ((frame_message (strBytes "true")).take 23) = [Delivery.eof] :=
  ⟨by decide, by decide,
    premature_stream_end_terminates_without_delivery Dex _ 23 (by decide) (by decide)⟩

/-- Claim C9: when a complete frame's payload fails JSON decoding and the
stream continues (the process is still alive), the loop delivers
`(none, parseError, false)` for that frame and then carries on reading the
rest of the stream — the decode error neither terminates the loop nor
escapes it. -/
theorem parse_error_delivered_loop_continues {α : Type} (D : List Nat → Option α)
    (p rest : List Nat) (hp : p.length < 2 ^ 63) (hD : D p = none) :
    Fjson_rpc D (frame_message p ++ rest) = Delivery.parseErr :: Fjson_rpc D rest := by
  have hcb := json_rpc_callback_frame D p rest hp
  rw [Fjson_rpc_unfold, hcb]
  have hne : frame_message p ++ rest ≠ [] := by
    intro h
    rw [frame_message_decomp, List.append_assoc] at h
    have := (List.append_eq_nil.mp h).1
    exact absurd this (by decide)
  simp [hne, stepDelivery, hD]

/-- Witness for claim C9's theorem: a frame carrying the four bytes `nope`,
which the stand-in decoder rejects. -/
theorem parse_error_delivered_loop_continues_witness :
    (strBytes "nope").length < 2 ^ 63 ∧
    Dex (strBytes "nope") = none ∧
    Fjson_rpc Dex (frame_message (strBytes "nope") ++ []) =
      Delivery.parseErr :: Fjson_rpc Dex [] :=
  ⟨by decide, by decide,
    parse_error_delivered_loop_continues Dex _ [] (by decide) (by decide)⟩

/-- Claim C4, code-bug evaluation: when the post-loop 1 s lock acquisition
times out (`lockOk = false`), the teardown of `Fjson_rpc` returns with the
state completely unchanged — the handle stays open, no close is performed,
and nothing is retried or escalated (the source marks the gap with
`TODO: what if mutex_lock fails?`); on a successful acquisition it does
close the handle and set the sentinel. -/
theorem teardown_lock_timeout_abandons_close :
    json_rpc_teardown false ⟨true, true, false, 0⟩ = ⟨true, true, false, 0⟩ ∧
    (json_rpc_teardown true ⟨true, true, false, 0⟩).closeCount = 1 ∧
    (json_rpc_teardown true ⟨true, true, false, 0⟩).handle = false :=
  ⟨rfl, rfl, rfl⟩

/-- Claim C5, counterexample: an execution in which the dispatch loop's
final lock acquisition times out destroys the handle zero times, not exactly
once — after a shutdown request and the timed-out teardown, `close` was
never called and the handle is still open. -/
theorem handle_not_closed_on_lock_timeout_counterexample :
    (json_rpc_teardown false (Fjson_rpc_shutdown true initState).1).closeCount ≠ 1 ∧
    (json_rpc_teardown false (Fjson_rpc_shutdown true initState).1).closeCount = 0 ∧
    (json_rpc_teardown false (Fjson_rpc_shutdown true initState).1).handle = true := by
  refine ⟨?_, rfl, rfl⟩
  decide

/-- The state returned by a shutdown request only sets `cancel_send`. -/
theorem Fjson_rpc_shutdown_fst (l : Bool) (st : json_rpc_state) :
    (Fjson_rpc_shutdown l st).1 = ⟨st.handle, st.done, true, st.closeCount⟩ := by
  rw [Fjson_rpc_shutdown]
  by_cases h : (l && st.handle) = true <;> simp [h]

/-- Any sequence of shutdown requests leaves the handle, the close count and
the `done` flag untouched. -/
theorem shutdown_fold (ls : List Bool) : ∀ st : json_rpc_state,
    (ls.foldl (fun st l => (Fjson_rpc_shutdown l st).1) st).handle = st.handle ∧
    (ls.foldl (fun st l => (Fjson_rpc_shutdown l st).1) st).closeCount = st.closeCount ∧
    (ls.foldl (fun st l => (Fjson_rpc_shutdown l st).1) st).done = st.done := by
  induction ls with
  | nil => intro st; exact ⟨rfl, rfl, rfl⟩
  | cons l ls ih =>
    intro st
    rw [List.foldl_cons]
    have h := ih (Fjson_rpc_shutdown l st).1
    refine ⟨?_, ?_, ?_⟩
    · rw [h.1, Fjson_rpc_shutdown_fst]
    · rw [h.2.1, Fjson_rpc_shutdown_fst]
    · rw [h.2.2, Fjson_rpc_shutdown_fst]

/-- Claim C5 (amended: the handle is destroyed at most once — only by the
dispatch loop's teardown, and exactly once whenever that teardown's lock
acquisition succeeds): after any number of shutdown requests the teardown
closes the handle exactly once and sets the sentinel; a shutdown request
never closes the handle, never signals an error, and repeating it is a
no-op on the session state. -/
theorem handle_closed_once_and_shutdown_idempotent :
    (∀ ls : List Bool,
      (json_rpc_teardown true
        (ls.foldl (fun st l => (Fjson_rpc_shutdown l st).1) initState)).closeCount = 1 ∧
      (json_rpc_teardown true
        (ls.foldl (fun st l => (Fjson_rpc_shutdown l st).1) initState)).handle = false) ∧
    (∀ (l : Bool) (st : json_rpc_state),
      (Fjson_rpc_shutdown l st).1.closeCount = st.closeCount ∧
      (Fjson_rpc_shutdown l st).1.handle = st.handle ∧
      (Fjson_rpc_shutdown l st).2.2 = none) ∧
    (∀ (l1 l2 : Bool) (st : json_rpc_state),
      (Fjson_rpc_shutdown l2 (Fjson_rpc_shutdown l1 st).1).1 =
        (Fjson_rpc_shutdown l1 st).1) := by
  have hteardown : ∀ st : json_rpc_state,
      json_rpc_teardown true st = ⟨false, st.done, st.cancel_send, st.closeCount + 1⟩ :=
    fun _ => rfl
  refine ⟨?_, ?_, ?_⟩
  · intro ls
    have h := shutdown_fold ls initState
    rw [hteardown]
    refine ⟨?_, rfl⟩
    show (ls.foldl (fun st l => (Fjson_rpc_shutdown l st).1) initState).closeCount + 1 = 1
    rw [h.2.1]
    rfl
  · intro l st
    rw [Fjson_rpc_shutdown_fst]
    refine ⟨rfl, rfl, ?_⟩
    rw [Fjson_rpc_shutdown]
    by_cases h : (l && st.handle) = true <;> simp [h]
  · intro l1 l2 st
    rw [Fjson_rpc_shutdown_fst, Fjson_rpc_shutdown_fst]

/-- Processing a concatenated pair list processes the appended pair last,
threading errors. -/
theorem parseArgsLoop_append (pot : Bool) :
    ∀ (A : List (LObj × LObj)) (x : LObj × LObj) (c : json_configuration),
      parseArgsLoop pot (A ++ [x]) c =
        (parseArgsLoop pot A c).bind (fun c' => processPair pot c' x.1 x.2) := by
  intro A
  induction A with
  | nil =>
    intro x c
    obtain ⟨k, v⟩ := x
    simp only [List.nil_append]
    cases h : processPair pot c k v with
    | ok c' => simp [parseArgsLoop, h, Except.bind]
    | error e => simp [parseArgsLoop, h, Except.bind]
  | cons y A' ih =>
    intro x c
    obtain ⟨k, v⟩ := y
    rw [List.cons_append]
    cases h : processPair pot c k v with
    | ok c' => simp [parseArgsLoop, h, ih]
    | error e => simp [parseArgsLoop, h, Except.bind]

/-- Claim C10: an odd-length keyword-argument list is rejected with
`wrong_type_argument`; since the loop runs from the back of the list, the
first (earliest) keyword/value pair is processed last, so it overrides
whatever a later duplicate set — in particular a duplicated `:null-object`
keyword ends up with its first value in the configuration. -/
theorem json_parse_args_first_occurrence_wins :
    (∀ (args : List LObj) (conf : json_configuration) (pot : Bool),
      args.length % 2 = 1 → json_parse_args args conf pot = .error .wrongTypeArgument) ∧
    (∀ (k v : LObj) (rest : List LObj) (conf : json_configuration) (pot : Bool),
      rest.length % 2 = 0 →
      json_parse_args (k :: v :: rest) conf pot =
        (json_parse_args rest conf pot).bind (fun c => processPair pot c k v)) ∧
    (∀ (v1 v2 : LObj) (conf : json_configuration) (pot : Bool),
      json_parse_args [QCnull_object, v1, QCnull_object, v2] conf pot =
        .ok ⟨conf.object_type, conf.array_type, v1, conf.false_object⟩) := by
  refine ⟨?_, ?_, ?_⟩
  · intro args conf pot hodd
    have hne : args.length % 2 ≠ 0 := by omega
    simp [json_parse_args, hne]
  · intro k v rest conf pot heven
    have h1 : ¬((k :: v :: rest).length % 2 ≠ 0) := by
      simp only [List.length_cons]
      omega
    have h2 : ¬(rest.length % 2 ≠ 0) := by omega
    rw [json_parse_args, json_parse_args, if_neg h1, if_neg h2,
      show toPairs (k :: v :: rest) = (k, v) :: toPairs rest from rfl,
      List.reverse_cons, parseArgsLoop_append]
  · intro v1 v2 conf pot
    have h1 : QCnull_object ≠ QCobject_type := by decide
    have h2 : QCnull_object ≠ QCarray_type := by decide
    have h3 : QCnull_object = QCnull_object := rfl
    simp [json_parse_args, toPairs, parseArgsLoop, processPair, h1, h2, h3]

/-- Witness for claim C10's theorem: a singleton list is rejected, and a
two-pair list is processed back to front. -/
theorem json_parse_args_first_occurrence_wins_witness :
    ([QCnull_object] : List LObj).length % 2 = 1 ∧
    json_parse_args [QCnull_object] defaultConf true = .error .wrongTypeArgument ∧
    (([] : List LObj)).length % 2 = 0 ∧
    json_parse_args [QCnull_object, LObj.num 5] defaultConf true =
      (json_parse_args [] defaultConf true).bind
        (fun c => processPair true c QCnull_object (LObj.num 5)) :=
  ⟨rfl, json_parse_args_first_occurrence_wins.1 [QCnull_object] defaultConf true rfl,
    rfl, json_parse_args_first_occurrence_wins.2.1 QCnull_object (LObj.num 5) []
      defaultConf true rfl⟩

/-- Reading inside a replicated list yields the replicated element. -/
theorem getD_replicate_lt : ∀ (n i a d : Nat), i < n →
    (List.replicate n a).getD i d = a := by
  intro n
  induction n with
  | zero => intro i a d h; omega
  | succ m ih =>
    intro i a d h
    rw [List.replicate_succ]
    cases i with
    | zero => rw [List.getD_cons_zero]
    | succ j => rw [List.getD_cons_succ]; exact ih j a d (by omega)

/-- The overflow chunk has exactly the buffer capacity. -/
theorem badChunk_length : badChunk.length = ERROR_BUFFER_SIZE := by
  unfold badChunk
  rw [List.length_append, List.length_replicate, List.length_cons, List.length_replicate]
  decide

/-- Byte 1 of the overflow chunk (inside the older half) is 7. -/
theorem badChunk_getD_one : badChunk.getD 1 0 = 7 := by
  unfold badChunk
  rw [List.getD_append _ _ _ _ (by rw [List.length_replicate]; decide)]
  exact getD_replicate_lt _ _ _ _ (by decide)

/-- The first byte of the recent half of the overflow chunk is the NUL. -/
theorem badChunk_getD_half : badChunk.getD (ERROR_BUFFER_SIZE / 2) 0 = 0 := by
  unfold badChunk
  rw [List.getD_append_right _ _ _ _ (by rw [List.length_replicate])]
  simp only [List.length_replicate, Nat.sub_self, List.getD_cons_zero]

/-- Byte 1 of the recent half of the overflow chunk is 9. -/
theorem badChunk_getD_half1 : badChunk.getD (ERROR_BUFFER_SIZE / 2 + 1) 0 = 9 := by
  unfold badChunk
  rw [List.getD_append_right _ _ _ _ (by rw [List.length_replicate]; omega)]
  simp only [List.length_replicate, Nat.add_sub_cancel_left, List.getD_cons_succ]
  exact getD_replicate_lt _ _ _ _ (by decide)


/-- Claim C6, code-bug evaluation: feed the capture buffer a 4 MiB stderr
chunk whose recent half is the NUL byte followed by 9s (older half all 7s).
The cursor is halved as specified, but the `strcpy` stops at the NUL it
copies first, so buffer byte 1 still holds the *older* half's byte 7 while
the most recently written half has byte 9 there — the buffer does not retain
the most recently written half. -/
theorem stderr_overflow_strcpy_truncation :
    (read_stdout_capture ⟨fun _ => 0, 0⟩ badChunk).readCount = ERROR_BUFFER_SIZE / 2 ∧
    (read_stdout_capture ⟨fun _ => 0, 0⟩ badChunk).buf 0 = 0 ∧
    (read_stdout_capture ⟨fun _ => 0, 0⟩ badChunk).buf 1 = 7 ∧
    badChunk.getD (ERROR_BUFFER_SIZE / 2 + 1) 0 = 9 ∧
    (read_stdout_capture ⟨fun _ => 0, 0⟩ badChunk).buf 1 ≠
      badChunk.getD (ERROR_BUFFER_SIZE / 2 + 1) 0 := by
  have htake : badChunk.take ERROR_BUFFER_SIZE = badChunk :=
    List.take_of_length_le (by rw [badChunk_length])
  have hcap : read_stdout_capture ⟨fun _ => 0, 0⟩ badChunk =
      ⟨strcpyHalf (writeBytes (fun _ => 0) 0 badChunk), ERROR_BUFFER_SIZE / 2⟩ := by
    unfold read_stdout_capture
    rw [show ERROR_BUFFER_SIZE - (⟨fun _ => 0, 0⟩ : errBufState).readCount
        = ERROR_BUFFER_SIZE from rfl, htake, badChunk_length,
      show (⟨fun _ => 0, 0⟩ : errBufState).readCount = 0 from rfl,
      show (⟨fun _ => 0, 0⟩ : errBufState).buf = (fun _ => 0) from rfl,
      Nat.zero_add, if_pos rfl]
  have hf1 : ∀ i, i < ERROR_BUFFER_SIZE →
      writeBytes (fun _ => 0) 0 badChunk i = badChunk.getD i 0 := by
    intro i hi
    unfold writeBytes
    rw [badChunk_length, if_pos ⟨Nat.zero_le i, by omega⟩, Nat.sub_zero]
  have hbuf_half : writeBytes (fun _ => 0) 0 badChunk (ERROR_BUFFER_SIZE / 2) = 0 := by
    rw [hf1 _ (by decide), badChunk_getD_half]
  have hcstr : cstrLen (writeBytes (fun _ => 0) 0 badChunk) (ERROR_BUFFER_SIZE / 2)
      (ERROR_BUFFER_SIZE / 2 + 1) = 0 := by
    rw [cstrLen, if_pos hbuf_half]
  have hstr0 : strcpyHalf (writeBytes (fun _ => 0) 0 badChunk) 0 = 0 := by
    unfold strcpyHalf
    simp only [hcstr]
    rw [if_pos (le_refl 0), Nat.add_zero, hbuf_half]
  have hstr1 : strcpyHalf (writeBytes (fun _ => 0) 0 badChunk) 1 = 7 := by
    unfold strcpyHalf
    simp only [hcstr]
    rw [if_neg (by omega), hf1 1 (by decide), badChunk_getD_one]
  have hbufeq : (read_stdout_capture ⟨fun _ => 0, 0⟩ badChunk).buf =
      strcpyHalf (writeBytes (fun _ => 0) 0 badChunk) := by
    rw [hcap]
  refine ⟨?_, ?_, ?_, badChunk_getD_half1, ?_⟩
  · rw [hcap]
  · rw [hbufeq]; exact hstr0
  · rw [hbufeq]; exact hstr1
  · rw [hbufeq, hstr1, badChunk_getD_half1]
    omega
